import Mathlib

/-!
Verification development for the audio acquisition and chunking pipeline of
the `ai-helper` desktop application (`src-tauri/src/audio.rs` and
`src-tauri/src/lib.rs`).

The Rust code is shallowly embedded: machine integers (`i16`, `u16`, `u32`)
become `ℤ`/`ℕ` with explicit range bounds and wrapping where the source can
overflow, `f32` samples are modelled as exact rationals (every concrete value
evaluated below has an exactly representable `f32` product, so rational
arithmetic agrees with IEEE single precision there), byte buffers become
`List ℕ`, and the stateful callback pipeline becomes explicit state-passing
functions returning the new buffer together with the list of emitted events.
-/

namespace AiHelper

/-- Sample formats relevant to `build_capture_stream` (cpal's `SampleFormat`
restricted to the three handled arms plus a catch-all `other`). -/
inductive SampleFormat
  | i16
  | f32
  | u16
  | other
deriving DecidableEq, Repr

/-! ## Sample conversion (`build_capture_stream` callback bodies) -/

/-- Truncation of a rational toward zero, the rounding used by Rust's
float-to-integer `as` cast. -/
def ratTrunc (q : ℚ) : ℤ := if 0 ≤ q then ⌊q⌋ else ⌈q⌉

/-- Rust `as i16` applied to a (non-NaN) float value: round toward zero and
saturate to the `i16` range. -/
def f32AsI16 (q : ℚ) : ℤ := max (-32768) (min 32767 (ratTrunc q))

/-- `f32::clamp(self, lo, hi)` on reals. -/
def ratClamp (x lo hi : ℚ) : ℚ := max lo (min hi x)

/-- Embedding of the `F32` callback conversion in `build_capture_stream`:
`(sample.clamp(-1.0, 1.0) * i16::MAX as f32) as i16`.  `i16::MAX as f32` is
exactly `32767`.  The multiplication is modelled exactly over `ℚ`; at every
point the theorems below evaluate it, the `f32` product is exactly
representable, so this agrees with the IEEE computation. -/
def convert_f32 (x : ℚ) : ℤ := f32AsI16 (ratClamp x (-1) 1 * 32767)

/-- Embedding of the `I16` callback conversion: the sample is pushed
unchanged (`b.push(s)`). -/
def convert_i16 (s : ℤ) : ℤ := s

/-- Embedding of the `U16` callback conversion:
`(sample as i32 - 32768) as i16` for `sample : u16` (the result always fits
in `i16`, so the final cast never wraps). -/
def convert_u16 (u : ℕ) : ℤ := (u : ℤ) - 32768

/-- Rust `i16::abs` as compiled in release mode: on `i16::MIN` the negation
overflows and wraps back to `i16::MIN` (`-32768`); a debug build would abort
on the same input with an overflow error. -/
def i16AbsRelease (s : ℤ) : ℤ := if s = -32768 then -32768 else |s|

/-! ## Chunk dispatcher (`check_and_send_buffer`) -/

/-- The event payload emitted on the `audio-chunk` channel
(`AudioPayload { speaker, data, amplitude }`). -/
structure AudioPayload where
  speaker : String
  data : String
  amplitude : ℤ
deriving DecidableEq, Repr

/-- `pcm_data.iter().map(|x| x.abs()).max().unwrap_or(0)`: the maximum of the
(release-mode) absolute values, `0` only for an empty take.  Note the default
applies only to the empty list — a non-empty all-`i16::MIN` take yields
`-32768`, not `0`. -/
def maxAmp (l : List ℤ) : ℤ := ((l.map i16AbsRelease).max?).getD 0

/-! ## Container encoder (`create_wav_data`, via `hound`) -/

/-- Little-endian encoding of the low 16 bits of a natural number. -/
def u16le (x : ℕ) : List ℕ := [x % 256, x / 256 % 256]

/-- Little-endian encoding of the low 32 bits of a natural number. -/
def u32le (x : ℕ) : List ℕ :=
  [x % 256, x / 256 % 256, x / 65536 % 256, x / 16777216 % 256]

/-- An `i16` sample serialized as its two's-complement bits, little-endian,
exactly as `hound::WavWriter::write_sample::<i16>` does for a 16-bit spec. -/
def i16le (s : ℤ) : List ℕ := u16le (s % 65536).toNat

/-- Embedding of `create_wav_data`: the byte sequence `hound` produces for a
16-bit signed integer PCM spec — the canonical 44-byte `RIFF`/`WAVE` header
(`fmt ` chunk of size 16, format tag 1) followed by the samples in
little-endian order.  `sample_rate` is a `u32` and `channels` a `u16` in the
source; the `u32le`/`u16le` serializers reduce each field to its wire width,
matching the wrapping the Rust code would perform on overflow. -/
def create_wav_data (sample_rate channels : ℕ) (samples : List ℤ) : List ℕ :=
  let dataLen := 2 * samples.length
  [82, 73, 70, 70] ++ u32le (36 + dataLen) ++ [87, 65, 86, 69, 102, 109, 116, 32]
    ++ u32le 16
    ++ u16le 1 ++ u16le channels ++ u32le sample_rate
    ++ u32le (sample_rate * channels * 2) ++ u16le (channels * 2) ++ u16le 16
    ++ [100, 97, 116, 97] ++ u32le dataLen
    ++ samples.flatMap i16le

/-- Read a little-endian 16-bit field, returning the value and the rest. -/
def readU16le : List ℕ → Option (ℕ × List ℕ)
  | a :: b :: rest => some (a + 256 * b, rest)
  | _ => none

/-- Read a little-endian 32-bit field, returning the value and the rest. -/
def readU32le : List ℕ → Option (ℕ × List ℕ)
  | a :: b :: c :: d :: rest => some (a + 256 * b + 65536 * c + 16777216 * d, rest)
  | _ => none

/-- Interpret a 16-bit word as a two's-complement signed value. -/
def u16ToI16 (u : ℕ) : ℤ := if u < 32768 then (u : ℤ) else (u : ℤ) - 65536

/-- Consume an expected literal byte sequence (container magic tags). -/
def expectBytes : List ℕ → List ℕ → Option (List ℕ)
  | [], l => some l
  | p :: ps, a :: l => if p = a then expectBytes ps l else none
  | _ :: _, [] => none

/-- Read `n` little-endian signed 16-bit samples. -/
def readSamples : ℕ → List ℕ → Option (List ℤ)
  | 0, [] => some []
  | n + 1, a :: b :: rest => (readSamples n rest).map (fun l => u16ToI16 (a + 256 * b) :: l)
  | _, _ => none

/-- A standard reader for the container family of §6 of the spec, written
from the spec's words (not from the repository, which contains no decoder):
it accepts a byte sequence with the fixed `RIFF`/`WAVE` header, a `fmt `
chunk declaring PCM (format tag 1) 16-bit samples, and a `data` chunk
holding raw little-endian interleaved `Int16` samples, and returns the
declared sample rate, channel count and the decoded samples.  Like common
readers it takes rate and channel count from their named header fields and
ignores the redundant byte-rate and block-align fields. -/
def readWav (bytes : List ℕ) : Option (ℕ × ℕ × List ℤ) := do
  let r ← expectBytes [82, 73, 70, 70] bytes
  let (_riffSize, r) ← readU32le r
  let r ← expectBytes [87, 65, 86, 69, 102, 109, 116, 32] r
  let (fmtSize, r) ← readU32le r
  let (audioFormat, r) ← readU16le r
  let (numChannels, r) ← readU16le r
  let (rate, r) ← readU32le r
  let (_byteRate, r) ← readU32le r
  let (_blockAlign, r) ← readU16le r
  let (bits, r) ← readU16le r
  let r ← expectBytes [100, 97, 116, 97] r
  let (dataSize, r) ← readU32le r
  if fmtSize = 16 ∧ audioFormat = 1 ∧ bits = 16 ∧ dataSize = r.length ∧ dataSize % 2 = 0 then
    let samples ← readSamples (dataSize / 2) r
    pure (rate, numChannels, samples)
  else
    none

/-! ## Base64 (`general_purpose::STANDARD.encode`) -/

/-- The standard base64 alphabet. -/
def base64Alphabet : List Char :=
  ['A', 'B', 'C', 'D', 'E', 'F', 'G', 'H', 'I', 'J', 'K', 'L', 'M',
   'N', 'O', 'P', 'Q', 'R', 'S', 'T', 'U', 'V', 'W', 'X', 'Y', 'Z',
   'a', 'b', 'c', 'd', 'e', 'f', 'g', 'h', 'i', 'j', 'k', 'l', 'm',
   'n', 'o', 'p', 'q', 'r', 's', 't', 'u', 'v', 'w', 'x', 'y', 'z',
   '0', '1', '2', '3', '4', '5', '6', '7', '8', '9', '+', '/']

/-- The character for one 6-bit group. -/
def b64Char (n : ℕ) : Char := base64Alphabet.getD n 'A'

/-- Standard base64 with padding, three input bytes to four output
characters. -/
def base64Chunks : List ℕ → List Char
  | [] => []
  | [a] => [b64Char (a / 4), b64Char (a % 4 * 16), '=', '=']
  | [a, b] => [b64Char (a / 4), b64Char (a % 4 * 16 + b / 16), b64Char (b % 16 * 4), '=']
  | a :: b :: c :: rest =>
      b64Char (a / 4) :: b64Char (a % 4 * 16 + b / 16)
        :: b64Char (b % 16 * 4 + c / 64) :: b64Char (c % 64) :: base64Chunks rest

/-- Embedding of `general_purpose::STANDARD.encode`. -/
def base64Encode (bytes : List ℕ) : String := String.mk (base64Chunks bytes)

/-! ## Chunk dispatcher -/

/-- Embedding of `check_and_send_buffer`.  The Rust function mutates the
buffer behind a mutex and emits events on the `audio-chunk` channel; here it
returns the buffer left behind together with the list of emitted
`AudioPayload`s (in emission order).  `current_amp` is the per-callback peak
(`max_v`) forwarded by the capture callbacks. -/
def check_and_send_buffer (buf : List ℤ) (sample_rate channels : ℕ)
    (speaker : String) (current_amp : ℤ) : List ℤ × List AudioPayload :=
  let limit := sample_rate * channels * 6
  if limit < buf.length then
    let pcm_data := buf
    let max_amp := maxAmp pcm_data
    if 800 < max_amp then
      ([], [⟨speaker, base64Encode (create_wav_data sample_rate channels pcm_data), max_amp⟩])
    else
      ([], [⟨speaker, "", current_amp⟩])
  else
    let update_interval := sample_rate * channels / 5
    if 0 < update_interval ∧ buf.length % update_interval < channels * 2 then
      (buf, [⟨speaker, "", current_amp⟩])
    else
      (buf, [])

/-! ## Capture callbacks (`build_capture_stream`) -/

/-- The per-callback peak tracking common to all three format arms:
`max_v` starts at `0` and is replaced whenever `s.abs()` (release semantics)
exceeds it. -/
def callbackPeak (converted : List ℤ) : ℤ :=
  converted.foldl (fun m s => let a := i16AbsRelease s; if m < a then a else m) 0

/-- One invocation of the `I16` capture callback on a hardware block:
append every sample to the buffer, track the peak, then call
`check_and_send_buffer`. -/
def i16Callback (buf : List ℤ) (block : List ℤ) (sample_rate channels : ℕ)
    (speaker : String) : List ℤ × List AudioPayload :=
  check_and_send_buffer (buf ++ block) sample_rate channels speaker (callbackPeak block)

/-- A run of consecutive `I16` callbacks starting from an empty buffer
state: returns the final buffer and all events emitted along the way. -/
def runI16Callbacks (blocks : List (List ℤ)) (sample_rate channels : ℕ)
    (speaker : String) : List ℤ × List AudioPayload :=
  blocks.foldl
    (fun st block =>
      let next := i16Callback st.1 block sample_rate channels speaker
      (next.1, st.2 ++ next.2))
    ([], [])

/-! ## Device model, config negotiation and device resolution -/

/-- A concrete stream configuration (cpal `SupportedStreamConfig`,
restricted to the fields the code reads). -/
structure SupportedStreamConfig where
  sampleFormat : SampleFormat
  sampleRate : ℕ
deriving DecidableEq, Repr

/-- A supported configuration range (cpal `SupportedStreamConfigRange`,
restricted to the fields the code reads). -/
structure SupportedConfigRange where
  sampleFormat : SampleFormat
  maxSampleRate : ℕ
deriving DecidableEq, Repr

/-- `SupportedStreamConfigRange::with_max_sample_rate`. -/
def withMaxSampleRate (r : SupportedConfigRange) : SupportedStreamConfig :=
  ⟨r.sampleFormat, r.maxSampleRate⟩

/-- A device as observed through the cpal calls the code makes: its name and
the outcomes of the three configuration queries.  `none` for
`supportedInputConfigs` models the `Err` outcome of
`supported_input_configs()`. -/
structure Device where
  name : String
  defaultInputConfig : Option SupportedStreamConfig
  supportedInputConfigs : Option (List SupportedConfigRange)
  defaultOutputConfig : Option SupportedStreamConfig
deriving DecidableEq, Repr

/-- The scoring in `resolve_input_config`'s strategy 2:
`I16 => 2, F32 => 1, _ => 0`. -/
def formatScore : SampleFormat → ℕ
  | .i16 => 2
  | .f32 => 1
  | _ => 0

/-- The `max_by_key` key: `(format_score, c.max_sample_rate().0)`. -/
def configKey (c : SupportedConfigRange) : ℕ × ℕ :=
  (formatScore c.sampleFormat, c.maxSampleRate)

/-- Rust tuple comparison on the key: lexicographic. -/
def keyLe (a b : ℕ × ℕ) : Bool :=
  a.1 < b.1 || (a.1 == b.1 && a.2 ≤ b.2)

/-- Rust `Iterator::max_by_key`, which returns the LAST maximal element:
fold that replaces the current best whenever the new key is `≥`. -/
def maxByKeyLast : List SupportedConfigRange → Option SupportedConfigRange
  | [] => none
  | x :: xs =>
      some (xs.foldl (fun acc y => if keyLe (configKey acc) (configKey y) then y else acc) x)

/-- Embedding of `resolve_input_config`: strategy 1 is
`default_input_config()`; strategy 2 enumerates
`supported_input_configs()` and, when the enumeration succeeds and is
non-empty, instantiates the `max_by_key` winner at its maximum rate;
strategy 3 is `default_output_config()`. -/
def resolve_input_config (d : Device) : Option SupportedStreamConfig :=
  match d.defaultInputConfig with
  | some config => some config
  | none =>
      match d.supportedInputConfigs with
      | some configs =>
          if configs.isEmpty then d.defaultOutputConfig
          else
            match maxByKeyLast configs with
            | some best => some (withMaxSampleRate best)
            | none => d.defaultOutputConfig
      | none => d.defaultOutputConfig

/-- The capability probe of `resolve_device` step 1:
`d.default_input_config().is_ok() ||
 d.supported_input_configs().map(|mut c| c.next().is_some()).unwrap_or(false)`. -/
def captureProbe (d : Device) : Bool :=
  d.defaultInputConfig.isSome ||
    (match d.supportedInputConfigs with
     | some l => !l.isEmpty
     | none => false)

/-- A host as observed by `resolve_device`: the `host.devices()` enumeration
(assumed to succeed; its order is the platform's) and the two defaults. -/
structure Host where
  devices : List Device
  defaultInputDevice : Option Device
  defaultOutputDevice : Option Device

/-- `clone_device_by_name`: re-enumerate and take the FIRST device whose
name matches, regardless of its capabilities. -/
def clone_device_by_name (h : Host) (name : String) : Option Device :=
  h.devices.find? (fun d => d.name == name)

/-- The role-default fallback at the end of `resolve_device`. -/
def resolveDefaultDevice (h : Host) (speaker_type : String) : Option Device :=
  if speaker_type == "interviewer" then h.defaultOutputDevice else h.defaultInputDevice

/-- Embedding of `resolve_device`.  With a requested name: step 1 scans for
a name match that passes the capability probe and, on success, returns
`clone_device_by_name` (note: the re-lookup is by name only); step 2 returns
the first device with the name; otherwise the role default is used. -/
def resolve_device (h : Host) (speaker_type : String) (target_name : Option String) :
    Option Device :=
  match target_name with
  | some name =>
      if h.devices.any (fun d => d.name == name && captureProbe d) then
        clone_device_by_name h name
      else if h.devices.any (fun d => d.name == name) then
        h.devices.find? (fun d => d.name == name)
      else
        resolveDefaultDevice h speaker_type
  | none => resolveDefaultDevice h speaker_type

/-! ## Active stream set (`lib.rs`) -/

/-- Embedding of `stop_interview_mode`: the handler locks the
`InterviewStreams` state and overwrites it with `None`, unconditionally.
`α` stands in for `cpal::Stream` handles, which carry no observable state of
their own in this model. -/
def stop_interview_mode {α : Type} (_s : Option (List α)) : Option (List α) := none

/-- Embedding of `start_interview_mode`: `listenResult` is the outcome of
`audio::start_listening` (`Some(stream)` or `None`); the handler builds
`streams_vec` from it (a one-element vector on success, an empty vector on
failure) and then overwrites the `InterviewStreams` state with
`Some(streams_vec)`, dropping whatever was installed before. -/
def start_interview_mode {α : Type} (listenResult : Option α)
    (_prev : Option (List α)) : Option (List α) :=
  let streams_vec : List α := match listenResult with
    | some s => [s]
    | none => []
  some streams_vec

/-! ## Helper lemmas -/

theorem expectBytes_same (p l : List ℕ) : expectBytes p (p ++ l) = some l := by
  induction p with
  | nil => rfl
  | cons a t ih => simpa [expectBytes] using ih

theorem readU16le_u16le (x : ℕ) (rest : List ℕ) (h : x < 65536) :
    readU16le (u16le x ++ rest) = some (x, rest) := by
  simp only [u16le, List.cons_append, List.nil_append, readU16le, Option.some.injEq,
    Prod.mk.injEq, and_true]
  omega

theorem readU32le_u32le (x : ℕ) (rest : List ℕ) (h : x < 4294967296) :
    readU32le (u32le x ++ rest) = some (x, rest) := by
  simp only [u32le, List.cons_append, List.nil_append, readU32le, Option.some.injEq,
    Prod.mk.injEq, and_true]
  omega

theorem readU16le_u16le_wrap (x : ℕ) (rest : List ℕ) :
    readU16le (u16le x ++ rest) = some (x % 256 + 256 * (x / 256 % 256), rest) := rfl

theorem readU32le_u32le_wrap (x : ℕ) (rest : List ℕ) :
    readU32le (u32le x ++ rest)
      = some (x % 256 + 256 * (x / 256 % 256) + 65536 * (x / 65536 % 256)
          + 16777216 * (x / 16777216 % 256), rest) := rfl

theorem length_flatMap_i16le (s : List ℤ) : (s.flatMap i16le).length = 2 * s.length := by
  induction s with
  | nil => rfl
  | cons a t ih => simp [i16le, u16le, ih]; omega

theorem readSamples_flatMap (s : List ℤ) (h : ∀ x ∈ s, -32768 ≤ x ∧ x ≤ 32767) :
    readSamples s.length (s.flatMap i16le) = some s := by
  induction s with
  | nil => rfl
  | cons a t ih =>
      obtain ⟨ha₁, ha₂⟩ := h a (List.mem_cons_self a t)
      have ht := ih (fun x hx => h x (List.mem_cons_of_mem a hx))
      have hrec : (a % 65536).toNat % 256 + 256 * ((a % 65536).toNat / 256 % 256)
          = (a % 65536).toNat := by omega
      have hval : u16ToI16 ((a % 65536).toNat % 256 + 256 * ((a % 65536).toNat / 256 % 256)) = a := by
        rw [hrec]
        unfold u16ToI16
        split <;> omega
      show readSamples (t.length + 1) (i16le a ++ t.flatMap i16le) = some (a :: t)
      simp only [i16le, u16le, List.cons_append, List.append_eq, List.nil_append,
        readSamples, ht, Option.map_some', Option.some.injEq, List.cons.injEq, and_true]
      exact hval

theorem base64Encode_cons (a : ℕ) (t : List ℕ) : base64Encode (a :: t) ≠ "" := by
  have hne : ∃ ch l, base64Chunks (a :: t) = ch :: l := by
    match t with
    | [] => exact ⟨_, _, rfl⟩
    | [b] => exact ⟨_, _, rfl⟩
    | b :: c :: rest => exact ⟨_, _, rfl⟩
  obtain ⟨ch, l, hl⟩ := hne
  unfold base64Encode
  rw [hl]
  intro hcon
  have := congrArg String.data hcon
  simp at this

theorem callbackPeak_replicate_zero (n : ℕ) : callbackPeak (List.replicate n 0) = 0 := by
  unfold callbackPeak
  induction n with
  | zero => rfl
  | succ m ih => simpa [List.replicate_succ, i16AbsRelease] using ih

theorem keyLe_total (a b : ℕ × ℕ) : keyLe a b = true ∨ keyLe b a = true := by
  rcases a with ⟨a₁, a₂⟩
  rcases b with ⟨b₁, b₂⟩
  simp only [keyLe, Bool.or_eq_true, Bool.and_eq_true, decide_eq_true_eq, beq_iff_eq]
  omega

theorem keyLe_trans (a b c : ℕ × ℕ) (h₁ : keyLe a b = true) (h₂ : keyLe b c = true) :
    keyLe a c = true := by
  rcases a with ⟨a₁, a₂⟩
  rcases b with ⟨b₁, b₂⟩
  rcases c with ⟨c₁, c₂⟩
  simp only [keyLe, Bool.or_eq_true, Bool.and_eq_true, decide_eq_true_eq, beq_iff_eq] at *
  omega

theorem foldl_maxByKey_spec (x : SupportedConfigRange) (xs : List SupportedConfigRange) :
    (xs.foldl (fun acc y => if keyLe (configKey acc) (configKey y) then y else acc) x) ∈ x :: xs
    ∧ ∀ q ∈ x :: xs,
        keyLe (configKey q)
          (configKey (xs.foldl
            (fun acc y => if keyLe (configKey acc) (configKey y) then y else acc) x)) = true := by
  induction xs generalizing x with
  | nil =>
      refine ⟨List.mem_singleton.mpr rfl, ?_⟩
      intro q hq
      rw [List.mem_singleton.mp hq]
      rcases keyLe_total (configKey x) (configKey x) with h | h <;> simpa using h
  | cons y ys ih =>
      set f : SupportedConfigRange → SupportedConfigRange → SupportedConfigRange :=
        fun acc z => if keyLe (configKey acc) (configKey z) then z else acc with hf
      obtain ⟨ihMem, ihLe⟩ := ih (f x y)
      have hfxy : f x y = y ∨ f x y = x := by
        by_cases h : keyLe (configKey x) (configKey y) = true
        · exact Or.inl (by simp [hf, h])
        · exact Or.inr (by simp [hf, h])
      have hstep : (y :: ys).foldl f x = ys.foldl f (f x y) := rfl
      constructor
      · rw [hstep]
        rcases List.mem_cons.mp ihMem with hm | hm
        · rw [hm]
          rcases hfxy with h | h <;> rw [h]
          · exact List.mem_cons_of_mem _ (List.mem_cons_self _ _)
          · exact List.mem_cons_self _ _
        · exact List.mem_cons_of_mem _ (List.mem_cons_of_mem _ hm)
      · intro q hq
        rw [hstep]
        have hx_le : keyLe (configKey x) (configKey (ys.foldl f (f x y))) = true := by
          by_cases h : keyLe (configKey x) (configKey y) = true
          · have hfy : f x y = y := by simp [hf, h]
            exact keyLe_trans _ _ _ h (by simpa [hfy] using ihLe (f x y) (List.mem_cons_self _ _))
          · have hfy : f x y = x := by simp [hf, h]
            simpa [hfy] using ihLe (f x y) (List.mem_cons_self _ _)
        have hy_le : keyLe (configKey y) (configKey (ys.foldl f (f x y))) = true := by
          by_cases h : keyLe (configKey x) (configKey y) = true
          · have hfy : f x y = y := by simp [hf, h]
            simpa [hfy] using ihLe (f x y) (List.mem_cons_self _ _)
          · have hfy : f x y = x := by simp [hf, h]
            rcases keyLe_total (configKey x) (configKey y) with h' | h'
            · exact absurd h' h
            · exact keyLe_trans _ _ _ h' (by simpa [hfy] using ihLe (f x y) (List.mem_cons_self _ _))
        rcases List.mem_cons.mp hq with hqx | hq'
        · rw [hqx]; exact hx_le
        rcases List.mem_cons.mp hq' with hqy | hq''
        · rw [hqy]; exact hy_le
        · exact ihLe q (List.mem_cons_of_mem _ hq'')

/-! ## Claim theorems -/

/-- C1 (counterexample): the claim states that a Float32 sample of `-1.0`
converts to `Int16` min (`-32768`); the code computes
`(-1.0).clamp(-1.0, 1.0) * 32767.0 = -32767.0` (an exact `f32` product) and
casts it to `-32767`, which is not `Int16` min. -/
theorem convert_f32_neg_one_ne_int16_min :
    convert_f32 (-1) = -32767 ∧ ((-32767 : ℤ) = -32768 → False) := by
  refine ⟨?_, by omega⟩
  norm_num [convert_f32, f32AsI16, ratClamp, ratTrunc, Int.ceil_neg]

/-- C1 (amended): per-callback conversion to the canonical Int16 domain:
a Float32 sample is clamped to `[-1.0, 1.0]`, scaled by the maximum Int16
magnitude `32767` and truncated toward zero, so `1.0` maps to Int16 max
`32767` and `-1.0` maps to `-32767` (the negation of Int16 max, one above
Int16 min); an Int16 sample passes through unchanged; a Uint16 sample is
converted by subtracting the midpoint `32768`, so `0` maps to Int16 min and
`65535` to Int16 max. -/
theorem convert_samples_spec :
    convert_f32 1 = 32767
    ∧ convert_f32 (-1) = -32767
    ∧ convert_f32 (1 / 2) = 16383
    ∧ convert_f32 (-1 / 2) = -16383
    ∧ (∀ x : ℚ, 1 ≤ x → convert_f32 x = 32767)
    ∧ (∀ x : ℚ, x ≤ -1 → convert_f32 x = -32767)
    ∧ (∀ s : ℤ, convert_i16 s = s)
    ∧ convert_u16 0 = -32768
    ∧ convert_u16 65535 = 32767
    ∧ (∀ u : ℕ, convert_u16 u = (u : ℤ) - 32768) := by
  refine ⟨?_, ?_, ?_, ?_, ?_, ?_, fun s => rfl, by decide, by decide, fun u => rfl⟩
  · norm_num [convert_f32, f32AsI16, ratClamp, ratTrunc]
  · norm_num [convert_f32, f32AsI16, ratClamp, ratTrunc, Int.ceil_neg]
  · norm_num [convert_f32, f32AsI16, ratClamp, ratTrunc]
  · norm_num [convert_f32, f32AsI16, ratClamp, ratTrunc, Int.ceil_neg]
  · intro x hx
    have hcl : ratClamp x (-1) 1 = 1 := by
      unfold ratClamp
      rw [min_eq_left hx, max_eq_right (by norm_num : (-1 : ℚ) ≤ 1)]
    unfold convert_f32
    rw [hcl]
    norm_num [f32AsI16, ratTrunc]
  · intro x hx
    have hcl : ratClamp x (-1) 1 = -1 := by
      unfold ratClamp
      rw [min_eq_right (hx.trans (by norm_num)), max_eq_left hx]
    unfold convert_f32
    rw [hcl]
    norm_num [f32AsI16, ratTrunc, Int.ceil_neg]

/-- C1 (witness): the universally quantified clamp parts of
`convert_samples_spec` applied at concrete saturating inputs. -/
theorem convert_samples_spec_witness :
    convert_f32 2 = 32767 ∧ convert_f32 (-3) = -32767 ∧ convert_i16 5 = 5
    ∧ convert_u16 7 = (7 : ℤ) - 32768 :=
  ⟨convert_samples_spec.2.2.2.2.1 2 (by norm_num),
   convert_samples_spec.2.2.2.2.2.1 (-3) (by norm_num),
   convert_samples_spec.2.2.2.2.2.2.1 5,
   convert_samples_spec.2.2.2.2.2.2.2.2.2 7⟩

/-- C2: the dispatcher drains the accumulation buffer (takes its contents,
leaving it empty) exactly when its length exceeds
`sample_rate * channels * 6`, and never before; instantiated at
`sample_rate = 16000, channels = 1` the drain happens exactly when the
length exceeds `96000`. -/
theorem check_and_send_buffer_drain_threshold (buf : List ℤ) (r c : ℕ) (spk : String)
    (amp : ℤ) :
    (check_and_send_buffer buf r c spk amp).1 = (if r * c * 6 < buf.length then [] else buf)
    ∧ (check_and_send_buffer buf 16000 1 spk amp).1
        = (if 96000 < buf.length then [] else buf) := by
  have key : ∀ (r c : ℕ),
      (check_and_send_buffer buf r c spk amp).1
        = (if r * c * 6 < buf.length then [] else buf) := by
    intro r c
    by_cases h : r * c * 6 < buf.length
    · rw [if_pos h]
      simp only [check_and_send_buffer, if_pos h]
      split <;> rfl
    · rw [if_neg h]
      simp only [check_and_send_buffer, if_neg h]
      split <;> rfl
  refine ⟨key r c, ?_⟩
  have h16 := key 16000 1
  norm_num at h16 ⊢
  exact h16

/-- C4 (code bug): the claim says the gate peak equals the maximum of the
absolute values of the taken samples for every representable Int16 value
including Int16 min, but `i16::abs` overflows on `-32768`: in release mode
the peak of the take `[-32768]` is `-32768` (not `32768`), so a full-scale
drained chunk of `-32768` samples fails the `> 800` gate and is dispatched
as an empty-payload silence event. -/
theorem maxAmp_int16_min_overflow :
    maxAmp [(-32768 : ℤ)] = -32768
    ∧ (maxAmp [(-32768 : ℤ)] = 32768 → False)
    ∧ (check_and_send_buffer (List.replicate 7 (-32768)) 1 1 "remote" 0).2
        = [⟨"remote", "", 0⟩]
    ∧ (∀ l : List ℤ, (∀ x ∈ l, x ≠ -32768) → maxAmp l = ((l.map (|·|)).max?).getD 0) := by
  refine ⟨by decide, by decide, by decide, ?_⟩
  intro l hl
  unfold maxAmp
  have : l.map i16AbsRelease = l.map (|·|) := by
    apply List.map_congr_left
    intro x hx
    simp [i16AbsRelease, hl x hx]
  rw [this]

/-- C6 (code bug): with a requested name, step 1 of `resolve_device` finds a
capture-capable name match but then returns `clone_device_by_name`, which
re-looks the device up by name only and returns the FIRST device with that
name.  In a catalog enumerating a non-capture-capable "X" before a
capture-capable "X", the resolver returns the non-capture-capable one,
contradicting the claim (and the code's own comment) that a capture-capable
exact match is preferred.  The claim's concrete scenario — "X" present only
as a playback entry resolves to "X", never `none` — does hold. -/
theorem resolve_device_returns_first_name_match :
    (resolve_device
        ⟨[⟨"X", none, none, some ⟨.f32, 48000⟩⟩, ⟨"X", some ⟨.i16, 16000⟩, none, none⟩],
          none, none⟩
        "interviewer" (some "X")
      = some ⟨"X", none, none, some ⟨.f32, 48000⟩⟩)
    ∧ captureProbe ⟨"X", none, none, some ⟨.f32, 48000⟩⟩ = false
    ∧ captureProbe ⟨"X", some ⟨.i16, 16000⟩, none, none⟩ = true
    ∧ (resolve_device ⟨[⟨"X", none, none, some ⟨.f32, 48000⟩⟩], none, none⟩
        "interviewer" (some "X")
      = some ⟨"X", none, none, some ⟨.f32, 48000⟩⟩) := by
  refine ⟨by decide, by decide, by decide, by decide⟩

/-- C3: on a drained buffer, if the computed peak strictly exceeds the 800
gate the taken samples are WAV-encoded and dispatched as a non-empty base64
payload with amplitude equal to the drained peak; otherwise (peak ≤ 800,
so neither 799 nor the boundary 800 pass) an event with an empty payload
and amplitude equal to the per-callback peak `current_amp` is dispatched. -/
theorem check_and_send_buffer_amplitude_gate (buf : List ℤ) (r c : ℕ) (spk : String)
    (amp : ℤ) (h : r * c * 6 < buf.length) :
    (800 < maxAmp buf →
      (check_and_send_buffer buf r c spk amp).2
          = [⟨spk, base64Encode (create_wav_data r c buf), maxAmp buf⟩]
        ∧ base64Encode (create_wav_data r c buf) ≠ "")
    ∧ (maxAmp buf ≤ 800 →
      (check_and_send_buffer buf r c spk amp).2 = [⟨spk, "", amp⟩]) := by
  constructor
  · intro hg
    constructor
    · simp only [check_and_send_buffer, if_pos h, if_pos hg]
    · exact base64Encode_cons 82 _
  · intro hg
    simp only [check_and_send_buffer, if_pos h, if_neg (not_lt.mpr hg)]

/-- C3 (witness): the gate at concrete drained buffers of length 7 with
limit 6: peak 801 passes and is encoded, peaks 799 and 800 do not pass and
produce the level-only event carrying the callback peak. -/
theorem check_and_send_buffer_amplitude_gate_witness :
    ((check_and_send_buffer [801, 0, 0, 0, 0, 0, 0] 1 1 "remote" 0).2
        = [⟨"remote", base64Encode (create_wav_data 1 1 [801, 0, 0, 0, 0, 0, 0]),
            maxAmp [801, 0, 0, 0, 0, 0, 0]⟩]
      ∧ base64Encode (create_wav_data 1 1 [801, 0, 0, 0, 0, 0, 0]) ≠ "")
    ∧ (check_and_send_buffer [799, 0, 0, 0, 0, 0, 0] 1 1 "remote" 3).2 = [⟨"remote", "", 3⟩]
    ∧ (check_and_send_buffer [800, 0, 0, 0, 0, 0, 0] 1 1 "remote" 4).2 = [⟨"remote", "", 4⟩] :=
  ⟨(check_and_send_buffer_amplitude_gate [801, 0, 0, 0, 0, 0, 0] 1 1 "remote" 0
      (by decide)).1 (by decide),
   (check_and_send_buffer_amplitude_gate [799, 0, 0, 0, 0, 0, 0] 1 1 "remote" 3
      (by decide)).2 (by decide),
   (check_and_send_buffer_amplitude_gate [800, 0, 0, 0, 0, 0, 0] 1 1 "remote" 4
      (by decide)).2 (by decide)⟩

/-- C5: config negotiation tries exactly three strategies in strict
priority order, stopping at the first success: (1) the default input
configuration; (2) if the supported-input enumeration succeeds and is
non-empty, a member maximizing the lexicographic key (encoding preference
Int16 > Float32 > other, then maximum sample rate), instantiated at its
maximum rate; (3) the default output configuration; the result is `none`
iff all three fail. -/
theorem resolve_input_config_priority (d : Device) :
    (∀ cfg, d.defaultInputConfig = some cfg → resolve_input_config d = some cfg)
    ∧ (∀ l, d.defaultInputConfig = none → d.supportedInputConfigs = some l → l ≠ [] →
        ∃ best, best ∈ l ∧ resolve_input_config d = some (withMaxSampleRate best)
          ∧ ∀ q ∈ l, keyLe (configKey q) (configKey best) = true)
    ∧ (d.defaultInputConfig = none →
        (d.supportedInputConfigs = none ∨ d.supportedInputConfigs = some []) →
        resolve_input_config d = d.defaultOutputConfig)
    ∧ (resolve_input_config d = none ↔
        d.defaultInputConfig = none
        ∧ (d.supportedInputConfigs = none ∨ d.supportedInputConfigs = some [])
        ∧ d.defaultOutputConfig = none) := by
  refine ⟨?_, ?_, ?_, ?_⟩
  · intro cfg hc
    unfold resolve_input_config
    rw [hc]
  · intro l h1 h2 hne
    unfold resolve_input_config
    rw [h1, h2]
    match l, hne with
    | x :: xs, _ =>
        obtain ⟨hmem, hle⟩ := foldl_maxByKey_spec x xs
        exact ⟨_, hmem, rfl, hle⟩
  · intro h1 h2
    unfold resolve_input_config
    rw [h1]
    rcases h2 with h | h
    · rw [h]
    · rw [h]; rfl
  · constructor
    · intro h
      unfold resolve_input_config at h
      cases hdi : d.defaultInputConfig with
      | some cfg => rw [hdi] at h; exact absurd h (by simp)
      | none =>
          rw [hdi] at h
          cases hsc : d.supportedInputConfigs with
          | none => rw [hsc] at h; exact ⟨rfl, Or.inl rfl, h⟩
          | some l =>
              rw [hsc] at h
              match l with
              | [] => exact ⟨rfl, Or.inr rfl, h⟩
              | x :: xs => simp [maxByKeyLast] at h
    · rintro ⟨h1, h2, h3⟩
      unfold resolve_input_config
      rw [h1]
      rcases h2 with h | h <;> rw [h] <;> exact h3

/-- C5 (witness): each negotiation strategy observed on a concrete device:
a default input config is returned as-is; with no default input config the
best supported range (here Int16 at its max rate, beating a higher-rate
Float32) is instantiated; with an errored enumeration the default output
config is used; a device failing all three yields `none`. -/
theorem resolve_input_config_priority_witness :
    resolve_input_config ⟨"mic", some ⟨.i16, 44100⟩, none, none⟩ = some ⟨.i16, 44100⟩
    ∧ (∃ best, best ∈ ([⟨.f32, 48000⟩, ⟨.i16, 16000⟩] : List SupportedConfigRange)
        ∧ resolve_input_config ⟨"dev", none, some [⟨.f32, 48000⟩, ⟨.i16, 16000⟩], none⟩
            = some (withMaxSampleRate best)
        ∧ ∀ q ∈ ([⟨.f32, 48000⟩, ⟨.i16, 16000⟩] : List SupportedConfigRange),
            keyLe (configKey q) (configKey best) = true)
    ∧ resolve_input_config ⟨"spk", none, none, some ⟨.f32, 48000⟩⟩ = some ⟨.f32, 48000⟩
    ∧ resolve_input_config ⟨"dead", none, some [], none⟩ = none :=
  ⟨(resolve_input_config_priority _).1 _ rfl,
   (resolve_input_config_priority _).2.1 _ rfl rfl (by decide),
   (resolve_input_config_priority _).2.2.1 rfl (Or.inl rfl),
   ((resolve_input_config_priority _).2.2.2).mpr ⟨rfl, Or.inr rfl, rfl⟩⟩

/-- C7: while the buffer stays at or below the drain limit the dispatcher
emits a level-only event (empty payload, amplitude = callback peak) exactly
when the buffer length modulo `(sample_rate * channels) / 5` falls below
`channels * 2` (and the interval is positive) — a modulo check on the
current buffer length, so it does not fire on every appended sample (e.g.
100 accumulated samples at 16 kHz mono emit nothing); in the reference
scenario, 3200 samples (200 ms at 16 kHz mono) of silence delivered as two
1600-sample callbacks emit exactly one level-only event with amplitude 0
and empty payload, without draining the buffer. -/
theorem check_and_send_buffer_level_cadence :
    (∀ (buf : List ℤ) (r c : ℕ) (spk : String) (amp : ℤ), buf.length ≤ r * c * 6 →
      (check_and_send_buffer buf r c spk amp).2
          = (if 0 < r * c / 5 ∧ buf.length % (r * c / 5) < c * 2
             then [⟨spk, "", amp⟩] else [])
        ∧ (check_and_send_buffer buf r c spk amp).1 = buf)
    ∧ (check_and_send_buffer (List.replicate 100 0) 16000 1 "remote" 5).2 = []
    ∧ runI16Callbacks [List.replicate 1600 0, List.replicate 1600 0] 16000 1 "remote"
        = (List.replicate 3200 0, [⟨"remote", "", 0⟩]) := by
  refine ⟨?_, by decide, ?_⟩
  · intro buf r c spk amp hle
    have hnot : ¬ (r * c * 6 < buf.length) := not_lt.mpr hle
    constructor
    · by_cases hc : 0 < r * c / 5 ∧ buf.length % (r * c / 5) < c * 2
      · simp only [check_and_send_buffer, if_neg hnot, if_pos hc]
      · simp only [check_and_send_buffer, if_neg hnot, if_neg hc]
    · simp only [check_and_send_buffer, if_neg hnot]
      split <;> rfl
  · have hpk : callbackPeak (List.replicate 1600 (0 : ℤ)) = 0 :=
      callbackPeak_replicate_zero 1600
    have happ : List.replicate 1600 (0 : ℤ) ++ List.replicate 1600 (0 : ℤ)
        = List.replicate 3200 0 := by
      rw [← List.replicate_add]
    have h1 : check_and_send_buffer (List.replicate 1600 (0 : ℤ)) 16000 1 "remote" 0
        = (List.replicate 1600 0, []) := by
      simp only [check_and_send_buffer, List.length_replicate]
      norm_num
    have h2 : check_and_send_buffer (List.replicate 3200 (0 : ℤ)) 16000 1 "remote" 0
        = (List.replicate 3200 0, [⟨"remote", "", 0⟩]) := by
      simp only [check_and_send_buffer, List.length_replicate]
      norm_num
    simp only [runI16Callbacks, List.foldl_cons, List.foldl_nil, i16Callback,
      List.nil_append, hpk, h1, happ, h2]

/-- C7 (witness): the modulo-cadence part of
`check_and_send_buffer_level_cadence` applied at a concrete below-limit
buffer. -/
theorem check_and_send_buffer_level_cadence_witness :
    (check_and_send_buffer [0, 0] 1 1 "user" 4).2
        = (if 0 < 1 * 1 / 5 ∧ ([0, 0] : List ℤ).length % (1 * 1 / 5) < 1 * 2
           then [⟨"user", "", 4⟩] else [])
      ∧ (check_and_send_buffer [0, 0] 1 1 "user" 4).1 = [0, 0] :=
  check_and_send_buffer_level_cadence.1 [0, 0] 1 1 "user" 4 (by decide)

/-- C8: round-trip of the container encoder: encoding `N` Int16 samples at
a positive rate `R` (a `u32`) with a positive channel count `C` (a `u16`)
via `create_wav_data` and decoding with a standard WAV reader returns `R`,
`C` and the original samples unchanged, whenever the data fits the
container's 32-bit size fields. -/
theorem create_wav_data_roundtrip (R C : ℕ) (s : List ℤ)
    (_hR : 0 < R) (_hC : 0 < C) (hR32 : R < 4294967296) (hC16 : C < 65536)
    (hs : ∀ x ∈ s, -32768 ≤ x ∧ x ≤ 32767)
    (hN : 36 + 2 * s.length < 4294967296) :
    readWav (create_wav_data R C s) = some (R, C, s) := by
  have hflat : (s.flatMap i16le).length = 2 * s.length := length_flatMap_i16le s
  have hsam : readSamples s.length (s.flatMap i16le) = some s := readSamples_flatMap s hs
  simp only [create_wav_data, readWav, List.append_assoc]
  rw [expectBytes_same]
  simp only [Option.bind_eq_bind, Option.some_bind]
  rw [readU32le_u32le _ _ (by omega : 36 + 2 * s.length < 4294967296)]
  simp only [Option.some_bind]
  rw [expectBytes_same]
  simp only [Option.some_bind]
  rw [readU32le_u32le 16 _ (by norm_num)]
  simp only [Option.some_bind]
  rw [readU16le_u16le 1 _ (by norm_num)]
  simp only [Option.some_bind]
  rw [readU16le_u16le C _ hC16]
  simp only [Option.some_bind]
  rw [readU32le_u32le R _ hR32]
  simp only [Option.some_bind]
  rw [readU32le_u32le_wrap]
  simp only [Option.some_bind]
  rw [readU16le_u16le_wrap]
  simp only [Option.some_bind]
  rw [readU16le_u16le 16 _ (by norm_num)]
  simp only [Option.some_bind]
  rw [expectBytes_same]
  simp only [Option.some_bind]
  rw [readU32le_u32le (2 * s.length) _ (by omega)]
  simp only [Option.some_bind]
  have h2 : (2 * s.length) % 2 = 0 := by omega
  have hdiv : 2 * s.length / 2 = s.length := by omega
  simp only [hflat, h2, hdiv, and_true, true_and, and_self, if_true, eq_self_iff_true]
  rw [hsam]
  rfl

/-- C8 (witness): the round-trip at a concrete rate, channel count and
sample list covering both extremes of the Int16 range. -/
theorem create_wav_data_roundtrip_witness :
    readWav (create_wav_data 8000 1 [0, -1, 32767, -32768])
      = some (8000, 1, [0, -1, 32767, -32768]) :=
  create_wav_data_roundtrip 8000 1 [0, -1, 32767, -32768]
    (by norm_num) (by norm_num) (by norm_num) (by norm_num) (by decide) (by decide)

/-- C9: `stop_interview_mode` with no active capture (state `none`) is a
no-op that leaves the stream set in the same empty state, and a second
consecutive stop has the same effect as the first. -/
theorem stop_interview_mode_idempotent (α : Type) (s : Option (List α)) :
    @stop_interview_mode α none = none
    ∧ stop_interview_mode (stop_interview_mode s) = stop_interview_mode s := ⟨rfl, rfl⟩

/-- C10: `start_interview_mode` replaces the whole stream set regardless of
its previous contents — the result does not depend on the previous state —
and when starting the stream fails (`none` from `start_listening`) the set
holds `some []` (an installed empty stream list), not the previous
streams. -/
theorem start_interview_mode_replaces (α : Type) (r : Option α) (p q : Option (List α)) :
    start_interview_mode r p = start_interview_mode r q
    ∧ @start_interview_mode α none p = some []
    ∧ (∀ s : α, start_interview_mode (some s) p = some [s]) :=
  ⟨rfl, rfl, fun _ => rfl⟩

end AiHelper
